import Mathlib

/-!
Verification development for the MLIR SDBM (striped difference-bound matrix)
expression subsystem: the expression variants, the canonicalizing builder,
the bidirectional affine bridge and the DBM assembler/extractor, together
with the interning (hash-consing) store.

The C++ implementation files are not available; all definitions are modelled
from the specification document and checked against the behaviour recorded in
the unit tests (unittests/IR/SDBMTest.cpp).
-/

set_option maxRecDepth 4000
set_option linter.dupNamespace false

namespace SDBM

/-- Modelled from the spec: the closed variant type of SDBM expressions
(`SDBMExpr` and its subclasses in `mlir/IR/SDBMExpr.h`, implementation file
absent). `Constant` holds a signed integer value; `Dim`/`Symbol` hold a
position; `Stripe` holds a variable and the value of its constant stripe
factor; `Neg` a variable; `Sum` a varying expression and the value of its
constant right-hand side; `Diff` two expressions. Capability constraints
(Positive/Varying operands, positive stripe factor) are tracked by separate
predicates rather than baked into the type, mirroring the C++ class
hierarchy's runtime-checked casts. -/
inductive SDBMExpr where
  | constant (value : Int)
  | dim (position : Nat)
  | symbol (position : Nat)
  | stripe (var : SDBMExpr) (factor : Int)
  | neg (var : SDBMExpr)
  | sum (lhs : SDBMExpr) (rhs : Int)
  | diff (lhs : SDBMExpr) (rhs : SDBMExpr)
deriving DecidableEq, Repr

namespace SDBMExpr

/-- Modelled from the spec: the Positive capability class = {Dim, Symbol,
Stripe} (`SDBMPositiveExpr`). -/
def isPositive : SDBMExpr → Bool
  | .dim _ => true
  | .symbol _ => true
  | .stripe _ _ => true
  | _ => false

/-- Modelled from the spec: the Varying capability class = everything except
a pure Constant (`SDBMVaryingExpr`). -/
def isVarying : SDBMExpr → Bool
  | .constant _ => false
  | _ => true

/-- Modelled from the spec: the Input capability class = {Dim, Symbol}
(`SDBMInputExpr`). -/
def isInput : SDBMExpr → Bool
  | .dim _ => true
  | .symbol _ => true
  | _ => false

/-- Narrowing query: is the expression a Sum node. -/
def isSum : SDBMExpr → Bool
  | .sum _ _ => true
  | _ => false

/-- Narrowing query: is the expression a Neg node. -/
def isNeg : SDBMExpr → Bool
  | .neg _ => true
  | _ => false

/-- Accessor mirroring `SDBMConstantExpr::getValue`. -/
def getValue : SDBMExpr → Int
  | .constant v => v
  | _ => 0

/-- Accessor mirroring `SDBMDimExpr::getPosition` / `SDBMSymbolExpr::getPosition`. -/
def getPosition : SDBMExpr → Nat
  | .dim p => p
  | .symbol p => p
  | _ => 0

/-- Accessor mirroring `SDBMNegExpr::getVar` / `SDBMStripeExpr::getVar`. -/
def getVar : SDBMExpr → SDBMExpr
  | .neg v => v
  | .stripe v _ => v
  | e => e

/-- Accessor mirroring `SDBMStripeExpr::getStripeFactor` (the factor is a
constant expression in C++; here its integer value). -/
def getStripeFactor : SDBMExpr → Int
  | .stripe _ f => f
  | _ => 0

/-- Accessor mirroring `SDBMSumExpr::getLHS` / `SDBMDiffExpr::getLHS`. -/
def getLHS : SDBMExpr → SDBMExpr
  | .sum l _ => l
  | .diff l _ => l
  | e => e

/-- Accessor mirroring `SDBMDiffExpr::getRHS`. -/
def getRHS : SDBMExpr → SDBMExpr
  | .diff _ r => r
  | e => e

/-- Accessor mirroring `SDBMSumExpr::getRHS` (a constant expression in C++;
here its integer value). -/
def getSumRHS : SDBMExpr → Int
  | .sum _ c => c
  | _ => 0

end SDBMExpr

/-- Modelled from the spec: the raw variant constructor `SDBMNegExpr::get`.
It builds the literal node, applying no folding. -/
def SDBMNegExpr.get (var : SDBMExpr) : SDBMExpr := .neg var

/-- Modelled from the spec: the raw variant constructor `SDBMSumExpr::get`.
It builds the literal node, applying no folding. -/
def SDBMSumExpr.get (lhs : SDBMExpr) (rhs : Int) : SDBMExpr := .sum lhs rhs

/-- Modelled from the spec: the raw variant constructor `SDBMDiffExpr::get`.
It builds the literal node, preserving exactly the operands and their order,
applying no folding. -/
def SDBMDiffExpr.get (lhs rhs : SDBMExpr) : SDBMExpr := .diff lhs rhs

/-- Modelled from the spec: `SDBMStripeExpr::get`. Constructing a Stripe with
a non-positive factor is a fatal contract violation (an `assert`/abort in the
C++); the abort is modelled as `none`, so a `some` result is exactly a
successful construction. -/
def SDBMStripeExpr.get (var : SDBMExpr) (factor : Int) : Option SDBMExpr :=
  if factor ≤ 0 then none else some (.stripe var factor)

/-- Modelled from the spec: negation as used by the builder's `subtract`.
A constant is negated numerically; any other expression is wrapped in a
literal Neg node. -/
def negate : SDBMExpr → SDBMExpr
  | .constant c => .constant (-c)
  | e => .neg e

/-- Modelled from the spec: the canonicalizing builder's `add`
(`mlir::ops_assertions::operator+`), applying the folding rules of the spec
in their stated precedence: constant+constant folds numerically; a Sum's
constant is merged with an added constant; adding Constant 0 is the identity
(symmetric in operand order); adding a varying expression and a nonzero
constant builds a single Sum; adding an expression and the negation of the
same expression folds to Constant 0 (this is rule 4, `expr - expr = 0`,
routed through `subtract`); adding a varying expression and a negated
expression builds a Diff whose direction is fixed by which operand was
negated. A sum of two varying terms neither of which is negated is not
representable; the C++ asserts there, modelled as `none`. -/
def add : SDBMExpr → SDBMExpr → Option SDBMExpr
  | .constant a, .constant b => some (.constant (a + b))
  | .sum l c1, .constant c2 => some (.sum l (c1 + c2))
  | .constant c2, .sum l c1 => some (.sum l (c1 + c2))
  | e, .constant c => some (if c = 0 then e else .sum e c)
  | .constant c, e => some (if c = 0 then e else .sum e c)
  | l, .neg v => some (if l = v then .constant 0 else .diff l v)
  | .neg v, r => some (if r = v then .constant 0 else .diff r v)
  | _, _ => none

/-- Modelled from the spec: the builder's `subtract`
(`mlir::ops_assertions::operator-`), defined as addition of the negation
(spec rule 6). -/
def subtract (lhs rhs : SDBMExpr) : Option SDBMExpr :=
  add lhs (negate rhs)

/-- Modelled from the spec: the external general affine-expression
representation (`mlir::AffineExpr`), restricted to the node kinds the SDBM
bridge inspects: Add, Mul, FloorDiv, CeilDiv, Constant, Dim, Symbol. It is
treated as a plain structural tree. -/
inductive AffineExpr where
  | constant (value : Int)
  | dim (position : Nat)
  | symbol (position : Nat)
  | add (lhs rhs : AffineExpr)
  | mul (lhs rhs : AffineExpr)
  | floorDiv (lhs rhs : AffineExpr)
  | ceilDiv (lhs rhs : AffineExpr)
deriving DecidableEq, Repr

/-- Modelled from the spec: the forward direction of the affine bridge
(`SDBMExpr::getAsAffineExpr`), total and structural: a Neg becomes a
multiplication by -1, a Sum an addition of a constant, a Diff an addition of
the negated right-hand side, and a Stripe `x # c` the tile-base offset
`(x floordiv c) * c`. -/
def getAsAffineExpr : SDBMExpr → AffineExpr
  | .constant v => .constant v
  | .dim p => .dim p
  | .symbol p => .symbol p
  | .neg x => .mul (.constant (-1)) (getAsAffineExpr x)
  | .sum x c => .add (getAsAffineExpr x) (.constant c)
  | .diff x y => .add (getAsAffineExpr x) (.mul (.constant (-1)) (getAsAffineExpr y))
  | .stripe x c => .mul (.floorDiv (getAsAffineExpr x) (.constant c)) (.constant c)

/-- Negation of an optional converted operand, succeeding only on a
Positive expression (the Neg rule of the backward conversion). -/
def negOf : Option SDBMExpr → Option SDBMExpr
  | some s => if s.isPositive then some (.neg s) else none
  | none => none

/-- Modelled from the spec: the backward direction of the affine bridge
(`SDBMExpr::tryConvertAffineExpr`), partial, returning `none` rather than
erroring for anything outside the representable fragment. Constants and
dim/symbol leaves convert directly; an Add converts when both sides convert
and the builder's `add` accepts the combination; a Mul converts when it
matches the stripe pattern `Constant(C) * FloorDiv(Inner, Constant(C))`
(either operand order) with `Inner` converting to a Positive expression and
`C` positive, or when one side is the constant 1 (identity) or -1 (negation
of a Positive); a bare FloorDiv and any CeilDiv never convert. -/
def tryConvertAffineExpr : AffineExpr → Option SDBMExpr
  | .constant v => some (.constant v)
  | .dim p => some (.dim p)
  | .symbol p => some (.symbol p)
  | .add a b =>
      match tryConvertAffineExpr a, tryConvertAffineExpr b with
      | some x, some y => add x y
      | _, _ => none
  | .mul (.constant c) (.floorDiv inner (.constant c')) =>
      if c = c' then
        match tryConvertAffineExpr inner with
        | some s => if s.isPositive ∧ 0 < c then some (.stripe s c) else none
        | none => none
      else none
  | .mul (.floorDiv inner (.constant c')) (.constant c) =>
      if c = c' then
        match tryConvertAffineExpr inner with
        | some s => if s.isPositive ∧ 0 < c then some (.stripe s c) else none
        | none => none
      else none
  | .mul (.constant c) b =>
      if c = 1 then tryConvertAffineExpr b
      else if c = -1 then negOf (tryConvertAffineExpr b)
      else none
  | .mul a (.constant c) =>
      if c = 1 then tryConvertAffineExpr a
      else if c = -1 then negOf (tryConvertAffineExpr a)
      else none
  | .mul _ _ => none
  | .floorDiv _ _ => none
  | .ceilDiv _ _ => none

/-- Index of the first occurrence of an expression in a list, if any. -/
def idxOf (st : List SDBMExpr) (e : SDBMExpr) : Option Nat :=
  match st with
  | [] => none
  | x :: xs => if x = e then some 0 else (idxOf xs e).map (· + 1)

/-- Modelled from the spec: the expression store's intern-or-create
operation (`context.intern`). A store is the list of canonical expressions
created so far; a handle is an index into it. Interning looks the structural
value up and returns the existing handle, or appends the value and returns
the fresh handle. -/
def intern (st : List SDBMExpr) (e : SDBMExpr) : List SDBMExpr × Nat :=
  match idxOf st e with
  | some i => (st, i)
  | none => (st ++ [e], st.length)

/-- All Stripe subexpressions of an expression, innermost first, in
encounter order (the DBM assembler assigns one auxiliary position per
distinct stripe subexpression, including nested ones). -/
def collectStripes : SDBMExpr → List SDBMExpr
  | .stripe v f => collectStripes v ++ [.stripe v f]
  | .neg v => collectStripes v
  | .sum l _ => collectStripes l
  | .diff l r => collectStripes l ++ collectStripes r
  | _ => []

/-- Remove duplicates from a list, keeping first occurrences. -/
def dedup (l : List SDBMExpr) : List SDBMExpr :=
  l.foldl (fun acc e => if e ∈ acc then acc else acc ++ [e]) []

/-- Number of dimension positions an expression requires (max position + 1). -/
def numDimsOf : SDBMExpr → Nat
  | .dim p => p + 1
  | .stripe v _ => numDimsOf v
  | .neg v => numDimsOf v
  | .sum l _ => numDimsOf l
  | .diff l r => max (numDimsOf l) (numDimsOf r)
  | _ => 0

/-- Number of symbol positions an expression requires (max position + 1). -/
def numSymbolsOf : SDBMExpr → Nat
  | .symbol p => p + 1
  | .stripe v _ => numSymbolsOf v
  | .neg v => numSymbolsOf v
  | .sum l _ => numSymbolsOf l
  | .diff l r => max (numSymbolsOf l) (numSymbolsOf r)
  | _ => 0

/-- Modelled from the spec: the sparse DBM matrix position of a
Positive expression: position 0 is the distinguished zero position, then one
position per dimension, per symbol, and one synthetic auxiliary position per
distinct stripe subexpression (`temps`). Non-Positive expressions have no
position. -/
def posOf (d s : Nat) (temps : List SDBMExpr) : SDBMExpr → Option Nat
  | .dim p => some (1 + p)
  | .symbol p => some (1 + d + p)
  | .stripe v f => (idxOf temps (.stripe v f)).map (fun k => 1 + d + s + k)
  | _ => none

/-- Modelled from the spec: decompose an input expression into the shape
`a - b + c` over matrix positions (`a`/`b` a Positive position or the zero
position 0). An inequality input means `a - b + c ≤ 0`; an equality input
means `a - b + c = 0`. Inputs outside this shape are not representable. -/
def toTriple (p : SDBMExpr → Option Nat) : SDBMExpr → Option (Nat × Nat × Int)
  | .diff a b => do pure (← p a, ← p b, 0)
  | .sum (.diff a b) c => do pure (← p a, ← p b, c)
  | .sum (.neg a) c => do pure (0, ← p a, c)
  | .neg a => do pure (0, ← p a, 0)
  | .sum l c => do pure (← p l, 0, c)
  | .constant c => some (0, 0, c)
  | e => do pure (← p e, 0, 0)

/-- The empty bound matrix: no bound is known for any cell. -/
def emptyBounds : Nat → Nat → Option Int := fun _ _ => none

/-- Modelled from the spec: tighten cell `(i, j)` with the bound `i - j ≤ c`;
the tightest (minimal) bound wins, monotone tightening with no conflict
error. -/
def tighten (m : Nat → Nat → Option Int) (i j : Nat) (c : Int) :
    Nat → Nat → Option Int :=
  fun a b =>
    if a = i ∧ b = j then
      some (match m i j with | none => c | some c0 => min c0 c)
    else m a b

/-- Modelled from the spec: the sparse striped difference-bound matrix
(class `SDBM`): dimension/symbol counts, the synthetic auxiliary positions
with the stripe expression each one stands for, and the bound matrix
`bounds i j = some c` meaning `i - j ≤ c`. -/
structure SDBM where
  nDims : Nat
  nSyms : Nat
  temps : List SDBMExpr
  bounds : Nat → Nat → Option Int

/-- Modelled from the spec: the DBM assembler `SDBM::get`. It counts the
dimensions and symbols in use, assigns one auxiliary position to every
distinct stripe subexpression, records each auxiliary's defining equality
pair against its underlying variable, and then tightens one cell per
inequality `a - b ≤ c` and both mirror cells per equality `a - b = c`. -/
def SDBM.get (inequalities equalities : List SDBMExpr) : SDBM :=
  let all := inequalities ++ equalities
  let d := (all.map numDimsOf).foldl max 0
  let s := (all.map numSymbolsOf).foldl max 0
  let temps := dedup ((all.map collectStripes).flatten)
  let p := posOf d s temps
  let m0 := (List.range temps.length).foldl (fun m k =>
      match temps.get? k with
      | some (.stripe v _) =>
          match p v with
          | some u => tighten (tighten m (1 + d + s + k) u 0) u (1 + d + s + k) 0
          | none => m
      | _ => m) emptyBounds
  let m1 := inequalities.foldl (fun m e =>
      match toTriple p e with
      | some (a, b, c) => tighten m a b (-c)
      | none => m) m0
  let m2 := equalities.foldl (fun m e =>
      match toTriple p e with
      | some (a, b, c) => tighten (tighten m a b (-c)) b a c
      | none => m) m1
  ⟨d, s, temps, m2⟩

/-- The expression a matrix position stands for: a dimension, a symbol, or —
for a synthetic auxiliary position — its recorded defining stripe
expression, so auxiliaries never leak into extracted expressions. -/
def SDBM.posExpr (sdbm : SDBM) (i : Nat) : SDBMExpr :=
  if i = 0 then .constant 0
  else if i < 1 + sdbm.nDims then .dim (i - 1)
  else if i < 1 + sdbm.nDims + sdbm.nSyms then .symbol (i - 1 - sdbm.nDims)
  else (sdbm.temps.get? (i - 1 - sdbm.nDims - sdbm.nSyms)).getD (.constant 0)

/-- Whether `(i, j)` is the cell pair binding a synthetic auxiliary position
to its underlying variable (its defining equality). Such cells restate the
recorded stripe definition and are not re-emitted by extraction. -/
def SDBM.isDefPair (sdbm : SDBM) (i j : Nat) : Bool :=
  let base := 1 + sdbm.nDims + sdbm.nSyms
  let check := fun (a b : Nat) =>
    match (if base ≤ a then sdbm.temps.get? (a - base) else none) with
    | some (.stripe v _) =>
        decide (posOf sdbm.nDims sdbm.nSyms sdbm.temps v = some b)
    | _ => false
  check i j || check j i

/-- The expression emitted for cell `(i, j)` holding bound `c`: the form
`i - j - c`, read as `… = 0` for an equality and `… ≤ 0` for an inequality.
Bounds against the zero position drop the zero operand. -/
def SDBM.cellExpr (sdbm : SDBM) (i j : Nat) (c : Int) : SDBMExpr :=
  let base :=
    if j = 0 then sdbm.posExpr i
    else if i = 0 then .neg (sdbm.posExpr j)
    else .diff (sdbm.posExpr i) (sdbm.posExpr j)
  if c = 0 then base else .sum base (-c)

/-- Modelled from the spec: the DBM extractor `SDBM::getSDBMExpressions`,
returning `(inequalities, equalities)`. It scans all ordered position pairs,
skips defining cells of auxiliary positions, emits one equality per tight
matched mirror pair (at its first orientation) and one inequality per
remaining finite cell, substituting every auxiliary position by its
recorded stripe expression. -/
def SDBM.getSDBMExpressions (sdbm : SDBM) : List SDBMExpr × List SDBMExpr :=
  let N := 1 + sdbm.nDims + sdbm.nSyms + sdbm.temps.length
  let pairs := (List.range N).flatMap (fun i => (List.range N).map (fun j => (i, j)))
  pairs.foldl (fun acc ij =>
    let i := ij.1
    let j := ij.2
    if i = j then acc
    else if sdbm.isDefPair i j then acc
    else
      match sdbm.bounds i j with
      | none => acc
      | some c =>
        if sdbm.bounds j i = some (-c) then
          if i < j then (acc.1, acc.2 ++ [sdbm.cellExpr i j c]) else acc
        else (acc.1 ++ [sdbm.cellExpr i j c], acc.2)) ([], [])

/-- Canonical, capability-respecting expressions: the forms the
canonicalizing builder produces. A Stripe or Neg wraps a Positive
expression (with a positive stripe factor); a Sum has a Varying, non-Sum
left-hand side and a nonzero constant; a Diff has a Varying left-hand side
and a Positive right-hand side that differs from it. -/
def canonical : SDBMExpr → Bool
  | .constant _ => true
  | .dim _ => true
  | .symbol _ => true
  | .stripe v f => canonical v && v.isPositive && decide (0 < f)
  | .neg v => canonical v && v.isPositive
  | .sum l c => canonical l && l.isVarying && !l.isSum && decide (c ≠ 0)
  | .diff l r => canonical l && canonical r && l.isVarying && r.isPositive && decide (l ≠ r)

/-- The builder folds a varying, non-Sum expression plus a nonzero constant
into a single Sum node. -/
theorem add_varying_const (l : SDBMExpr) (c : Int) (hv : l.isVarying = true)
    (hs : l.isSum = false) (hc : c ≠ 0) : add l (.constant c) = some (.sum l c) := by
  cases l with
  | constant v => simp [SDBMExpr.isVarying] at hv
  | sum a b => simp [SDBMExpr.isSum] at hs
  | dim p => simp [add, if_neg hc]
  | symbol p => simp [add, if_neg hc]
  | stripe v f => simp [add, if_neg hc]
  | neg v => simp [add, if_neg hc]
  | diff a b => simp [add, if_neg hc]

/-- The builder folds a varying expression plus the negation of a different
expression into a Diff directed at the non-negated operand. -/
theorem add_neg_fold (l r : SDBMExpr) (hv : l.isVarying = true) (hne : l ≠ r) :
    add l (.neg r) = some (.diff l r) := by
  cases l with
  | constant v => simp [SDBMExpr.isVarying] at hv
  | dim p => simp [add, if_neg hne]
  | symbol p => simp [add, if_neg hne]
  | stripe v f => simp [add, if_neg hne]
  | neg v => simp [add, if_neg hne]
  | sum a b => simp [add, if_neg hne]
  | diff a b => simp [add, if_neg hne]

/-- Reduction of the backward conversion on `-1 * (x * y)`: the stripe
pattern does not apply (the right operand is not a floor division), so the
coefficient rule fires. -/
theorem tryConvert_mul_negOne_mul (x y : AffineExpr) :
    tryConvertAffineExpr (.mul (.constant (-1)) (.mul x y)) =
      negOf (tryConvertAffineExpr (.mul x y)) := by
  simp [tryConvertAffineExpr]

/-- Reduction of the backward conversion on an Add node. -/
theorem tryConvert_add (a b : AffineExpr) :
    tryConvertAffineExpr (.add a b) =
      match tryConvertAffineExpr a, tryConvertAffineExpr b with
      | some x, some y => add x y
      | _, _ => none := rfl

/-- Reduction of the backward conversion on the forward image of a stripe,
`(a floordiv f) * f`: the stripe pattern applies with matching factor. -/
theorem tryConvert_floorDiv_mul (a : AffineExpr) (f : Int) :
    tryConvertAffineExpr (.mul (.floorDiv a (.constant f)) (.constant f)) =
      match tryConvertAffineExpr a with
      | some s => if s.isPositive ∧ 0 < f then some (.stripe s f) else none
      | none => none := by
  simp [tryConvertAffineExpr]

/-- Backward conversion recognizes `-1 * e` as the negation of a Positive
expression. -/
theorem tryConvert_neg_pos (r : SDBMExpr) (hp : r.isPositive = true)
    (hr : tryConvertAffineExpr (getAsAffineExpr r) = some r) :
    tryConvertAffineExpr (.mul (.constant (-1)) (getAsAffineExpr r)) = some (.neg r) := by
  cases r with
  | dim p => simp [tryConvertAffineExpr, getAsAffineExpr, negOf, SDBMExpr.isPositive]
  | symbol p => simp [tryConvertAffineExpr, getAsAffineExpr, negOf, SDBMExpr.isPositive]
  | stripe v f =>
      simp only [getAsAffineExpr] at hr ⊢
      rw [tryConvert_mul_negOne_mul, hr]
      simp [negOf, SDBMExpr.isPositive]
  | constant v => simp [SDBMExpr.isPositive] at hp
  | neg v => simp [SDBMExpr.isPositive] at hp
  | sum a b => simp [SDBMExpr.isPositive] at hp
  | diff a b => simp [SDBMExpr.isPositive] at hp

/-- The backward conversion is a left inverse of the forward conversion on
every canonical expression. -/
theorem tryConvert_getAsAffineExpr (e : SDBMExpr) (h : canonical e = true) :
    tryConvertAffineExpr (getAsAffineExpr e) = some e := by
  induction e with
  | constant v => rfl
  | dim p => rfl
  | symbol p => rfl
  | stripe v f ih =>
      simp only [canonical, Bool.and_eq_true, decide_eq_true_eq] at h
      obtain ⟨⟨hc, hp⟩, hf⟩ := h
      simp only [getAsAffineExpr]
      rw [tryConvert_floorDiv_mul, ih hc]
      simp [hp, hf]
  | neg v ih =>
      simp only [canonical, Bool.and_eq_true] at h
      obtain ⟨hc, hp⟩ := h
      simp only [getAsAffineExpr]
      exact tryConvert_neg_pos v hp (ih hc)
  | sum l c ih =>
      simp only [canonical, Bool.and_eq_true, Bool.not_eq_true', decide_eq_true_eq] at h
      obtain ⟨⟨⟨hc, hv⟩, hs⟩, hcz⟩ := h
      simp only [getAsAffineExpr]
      rw [tryConvert_add, ih hc]
      exact add_varying_const l c hv hs hcz
  | diff l r ihl ihr =>
      simp only [canonical, Bool.and_eq_true, decide_eq_true_eq] at h
      obtain ⟨⟨⟨⟨hcl, hcr⟩, hv⟩, hp⟩, hne⟩ := h
      simp only [getAsAffineExpr]
      rw [tryConvert_add, ihl hcl, tryConvert_neg_pos r hp (ihr hcr)]
      exact add_neg_fold l r hv hne

/-- A found index points at the looked-up expression. -/
theorem idxOf_some (st : List SDBMExpr) (e : SDBMExpr) (i : Nat)
    (h : idxOf st e = some i) : st[i]? = some e := by
  induction st generalizing i with
  | nil => simp [idxOf] at h
  | cons x xs ih =>
      rw [idxOf] at h
      by_cases hx : x = e
      · rw [if_pos hx] at h
        obtain rfl : 0 = i := Option.some_inj.mp h
        simp [hx]
      · rw [if_neg hx, Option.map_eq_some'] at h
        obtain ⟨j, hj, rfl⟩ := h
        simpa using ih j hj

/-- A found index is in bounds. -/
theorem idxOf_lt_length (st : List SDBMExpr) (e : SDBMExpr) (i : Nat)
    (h : idxOf st e = some i) : i < st.length :=
  (List.getElem?_eq_some_iff.mp (idxOf_some st e i h)).1

/-- A failed lookup means the expression is absent. -/
theorem idxOf_none_not_mem (st : List SDBMExpr) (e : SDBMExpr)
    (h : idxOf st e = none) : e ∉ st := by
  induction st with
  | nil => simp
  | cons x xs ih =>
      by_cases hx : x = e
      · simp [idxOf, hx] at h
      · simp [idxOf, hx] at h
        simp [hx, ih h]
        exact fun he => hx he.symm

/-- After appending a missing expression, looking it up finds it at the old
length. -/
theorem idxOf_append_self (st : List SDBMExpr) (e : SDBMExpr)
    (h : idxOf st e = none) : idxOf (st ++ [e]) e = some st.length := by
  induction st with
  | nil => simp [idxOf]
  | cons x xs ih =>
      by_cases hx : x = e
      · simp [idxOf, hx] at h
      · simp [idxOf, hx] at h ⊢
        simp [ih h]

/-- Whether the expression is a Sum whose left-hand side is itself a Sum,
i.e. a constant addition nested two levels deep. -/
def hasNestedSumHead : SDBMExpr → Bool
  | .sum (.sum _ _) _ => true
  | _ => false

/-- C1: DBM round-trip stability. For the input equalities
`{ s#3#5 - d0 = 0, s#3#5 - d1 + 42 = 0 }` (symbol 0 striped by 3 then by 5,
the expressions being exactly what the builder produces for
`s - d0` and `s - d1 + 42`), `build` then `getExpressions` yields zero
inequalities and two equalities; building an SDBM again from the first
extraction's equality list and extracting again yields an equality set equal
(as a set, order irrelevant) to the first extraction's; a third pass changes
nothing either. -/
theorem claim_C1_dbm_round_trip :
    let s : SDBMExpr := .stripe (.stripe (.symbol 0) 3) 5
    let e1 : SDBMExpr := .diff s (.dim 0)
    let e2 : SDBMExpr := .sum (.diff s (.dim 1)) 42
    let r1 := (SDBM.get [] [e1, e2]).getSDBMExpressions
    let r2 := (SDBM.get [] r1.2).getSDBMExpressions
    let r3 := (SDBM.get [] r2.2).getSDBMExpressions
    subtract s (.dim 0) = some e1 ∧
    (subtract s (.dim 1)).bind (fun e => add e (.constant 42)) = some e2 ∧
    r1.1 = [] ∧ r1.2.length = 2 ∧
    r2.1 = [] ∧ r2.2.toFinset = r1.2.toFinset ∧
    r3.2.toFinset = r2.2.toFinset := by
  decide

/-- C2 (counterexample): the affine round trip fails on the raw expression
`Diff(Dim 0, Dim 0)`, which is built purely from the listed variants: the
backward conversion folds its forward image `d0 + (-1)*d0` to `Constant 0`,
not back to the Diff node. -/
theorem claim_C2_roundtrip_cex :
    tryConvertAffineExpr (getAsAffineExpr (SDBMExpr.diff (.dim 0) (.dim 0))) =
      some (.constant 0) ∧
    tryConvertAffineExpr (getAsAffineExpr (SDBMExpr.diff (.dim 0) (.dim 0))) ≠
      some (SDBMExpr.diff (.dim 0) (.dim 0)) := by
  decide

/-- C2 (amended): for every canonical expression — Stripe/Neg over a
Positive operand with positive factor, Sum with a Varying non-Sum left side
and nonzero constant, Diff with a Varying left side and a distinct Positive
right side — converting forward to the affine representation and backward
recovers the identical expression. -/
theorem claim_C2_affine_round_trip (e : SDBMExpr) (h : canonical e = true) :
    tryConvertAffineExpr (getAsAffineExpr e) = some e :=
  tryConvert_getAsAffineExpr e h

/-- C2 (witness): the amended round trip at the mixed tree
`(s0 # 2 # 5 - s0 # 2) + 2`, which contains a stripe nested two levels
deep. -/
theorem claim_C2_affine_round_trip_witness :
    canonical (SDBMExpr.sum
      (.diff (.stripe (.stripe (.symbol 0) 2) 5) (.stripe (.symbol 0) 2)) 2) = true ∧
    tryConvertAffineExpr (getAsAffineExpr (SDBMExpr.sum
      (.diff (.stripe (.stripe (.symbol 0) 2) 5) (.stripe (.symbol 0) 2)) 2)) =
      some (SDBMExpr.sum
        (.diff (.stripe (.stripe (.symbol 0) 2) 5) (.stripe (.symbol 0) 2)) 2) :=
  ⟨by decide, claim_C2_affine_round_trip _ (by decide)⟩

/-- C3: an affine multiplication `Constant(C) * FloorDiv(Inner, Constant(C))`
with the same constant on both sides converts to
`Stripe(convert(Inner), C)`, whenever `Inner` converts to a Positive
expression and `C` is positive (the conditions for the Stripe node to
exist). -/
theorem claim_C3_stripe_mul_pattern (inner : AffineExpr) (c : Int) (s : SDBMExpr)
    (hconv : tryConvertAffineExpr inner = some s) (hpos : s.isPositive = true)
    (hc : 0 < c) :
    tryConvertAffineExpr (.mul (.constant c) (.floorDiv inner (.constant c))) =
      some (.stripe s c) := by
  have hred : tryConvertAffineExpr (.mul (.constant c) (.floorDiv inner (.constant c))) =
      match tryConvertAffineExpr inner with
      | some s => if s.isPositive ∧ 0 < c then some (.stripe s c) else none
      | none => none := by
    simp [tryConvertAffineExpr]
  rw [hred, hconv]
  simp [hpos, hc]

/-- C3 (witness): `Constant(42) * FloorDiv(Dim 0, Constant 42)` converts to
a Stripe with factor 42. -/
theorem claim_C3_stripe_mul_pattern_witness :
    tryConvertAffineExpr (.mul (.constant 42) (.floorDiv (.dim 0) (.constant 42))) =
      some (.stripe (.dim 0) 42) :=
  claim_C3_stripe_mul_pattern (.dim 0) 42 (.dim 0) rfl rfl (by decide)

/-- C4: the backward conversion returns "no value" on every affine
expression outside the representable fragment: a sum of two dimension
variables, a variable with a constant coefficient other than 1 or -1, and
any ceiling division. -/
theorem claim_C4_non_representable :
    (∀ p q : Nat, tryConvertAffineExpr (.add (.dim p) (.dim q)) = none) ∧
    (∀ (p : Nat) (c : Int), c ≠ 1 → c ≠ -1 →
        tryConvertAffineExpr (.mul (.dim p) (.constant c)) = none) ∧
    (∀ a b : AffineExpr, tryConvertAffineExpr (.ceilDiv a b) = none) := by
  refine ⟨fun p q => rfl, fun p c h1 h2 => ?_, fun a b => rfl⟩
  simp [tryConvertAffineExpr, h1, h2]

/-- C4 (witness): the three concrete non-representable inputs of the test:
`d0 + d1`, `d0 * 2` and `d1 ceildiv 2`. -/
theorem claim_C4_non_representable_witness :
    tryConvertAffineExpr (.add (.dim 0) (.dim 1)) = none ∧
    tryConvertAffineExpr (.mul (.dim 0) (.constant 2)) = none ∧
    tryConvertAffineExpr (.ceilDiv (.dim 1) (.constant 2)) = none :=
  ⟨claim_C4_non_representable.1 0 1,
   claim_C4_non_representable.2.1 0 2 (by decide) (by decide),
   claim_C4_non_representable.2.2 (.dim 1) (.constant 2)⟩

/-- C5: constructing a Stripe with a non-positive factor aborts (modelled as
`none`) rather than returning a node; with a positive factor it succeeds and
the node exposes that factor; hence every constructed Stripe node has a
positive factor. -/
theorem claim_C5_stripe_factor_guard (v : SDBMExpr) (f : Int) :
    (f ≤ 0 → SDBMStripeExpr.get v f = none) ∧
    (0 < f → SDBMStripeExpr.get v f = some (.stripe v f) ∧
      (SDBMExpr.stripe v f).getStripeFactor = f) ∧
    (∀ e, SDBMStripeExpr.get v f = some e → 0 < e.getStripeFactor) := by
  unfold SDBMStripeExpr.get
  refine ⟨fun h => if_pos h, fun h => ⟨if_neg (by omega), rfl⟩, fun e he => ?_⟩
  split at he
  · exact absurd he (by simp)
  · obtain rfl : SDBMExpr.stripe v f = e := Option.some_inj.mp he
    simp only [SDBMExpr.getStripeFactor]
    omega

/-- C5 (witness): factor 0 aborts; factor 3 succeeds and exposes 3. -/
theorem claim_C5_stripe_factor_guard_witness :
    SDBMStripeExpr.get (.symbol 0) 0 = none ∧
    SDBMStripeExpr.get (.symbol 0) 3 = some (.stripe (.symbol 0) 3) ∧
    (SDBMExpr.stripe (.symbol 0) 3).getStripeFactor = 3 :=
  ⟨(claim_C5_stripe_factor_guard (.symbol 0) 0).1 (by decide),
   ((claim_C5_stripe_factor_guard (.symbol 0) 3).2.1 (by decide)).1,
   ((claim_C5_stripe_factor_guard (.symbol 0) 3).2.1 (by decide)).2⟩

/-- C6 (counterexample): with `x = y = Dim 0` (a Varying and a Positive
expression), `x + Neg(y)` folds to `Constant 0` by the `expr - expr = 0`
rule, not to `Diff(x, y)`; the claim as stated is false at this input. -/
theorem claim_C6_diff_order_cex :
    (SDBMExpr.dim 0).isVarying = true ∧ (SDBMExpr.dim 0).isPositive = true ∧
    add (.dim 0) (.neg (.dim 0)) = some (.constant 0) ∧
    add (.dim 0) (.neg (.dim 0)) ≠ some (.diff (.dim 0) (.dim 0)) := by
  decide

/-- C6 (amended): for every Varying expression `x` that is not itself a Neg
and every Positive expression `y` with `x ≠ y`, both `x + Neg(y)` and
`Neg(y) + x` fold to the identical expression `Diff(x, y)`, never
`Diff(y, x)`. -/
theorem claim_C6_diff_order_independent (x y : SDBMExpr) (hv : x.isVarying = true)
    (hn : x.isNeg = false) (_hp : y.isPositive = true) (hne : x ≠ y) :
    add x (.neg y) = some (.diff x y) ∧ add (.neg y) x = some (.diff x y) := by
  refine ⟨add_neg_fold x y hv hne, ?_⟩
  cases x with
  | constant v => simp [SDBMExpr.isVarying] at hv
  | neg v => simp [SDBMExpr.isNeg] at hn
  | dim p => simp [add, if_neg hne]
  | symbol p => simp [add, if_neg hne]
  | stripe v f => simp [add, if_neg hne]
  | sum a b => simp [add, if_neg hne]
  | diff a b => simp [add, if_neg hne]

/-- C6 (witness): both operand orders at `x = Dim 0`, `y = Dim 1`. -/
theorem claim_C6_diff_order_independent_witness :
    add (.dim 0) (.neg (.dim 1)) = some (.diff (.dim 0) (.dim 1)) ∧
    add (.neg (.dim 1)) (.dim 0) = some (.diff (.dim 0) (.dim 1)) :=
  claim_C6_diff_order_independent (.dim 0) (.dim 1) rfl rfl rfl (by decide)

/-- C7: interning is idempotent — a second construction call with equal
fields returns the identical store and handle; a handle obtained for `e2`
right after interning `e1` equals `e1`'s handle exactly when `e1 = e2`
(structural equality coincides with identity); and Dim and Symbol positions
are independent namespaces. -/
theorem claim_C7_uniquing (st : List SDBMExpr) (e1 e2 : SDBMExpr) (p q : Nat) :
    intern (intern st e1).1 e1 = intern st e1 ∧
    ((intern (intern st e1).1 e2).2 = (intern st e1).2 ↔ e1 = e2) ∧
    SDBMExpr.dim p ≠ SDBMExpr.symbol q := by
  refine ⟨?_, ?_, by simp⟩
  · cases h : idxOf st e1 with
    | some i => simp [intern, h]
    | none => simp [intern, h, idxOf_append_self st e1 h]
  · cases h1 : idxOf st e1 with
    | some i =>
        have hi : st[i]? = some e1 := idxOf_some st e1 i h1
        have hE1 : intern st e1 = (st, i) := by simp [intern, h1]
        rw [hE1]
        show (intern st e2).2 = i ↔ e1 = e2
        cases h2 : idxOf st e2 with
        | some k =>
            have hk : st[k]? = some e2 := idxOf_some st e2 k h2
            have hE2 : intern st e2 = (st, k) := by simp [intern, h2]
            rw [hE2]
            show k = i ↔ e1 = e2
            constructor
            · intro hik
              rw [hik, hi] at hk
              exact Option.some_inj.mp hk
            · intro he
              subst he
              rw [h1] at h2
              exact (Option.some_inj.mp h2).symm
        | none =>
            have hE2 : intern st e2 = (st ++ [e2], st.length) := by simp [intern, h2]
            rw [hE2]
            show st.length = i ↔ e1 = e2
            constructor
            · intro hik
              have hlt := idxOf_lt_length st e1 i h1
              omega
            · intro he
              subst he
              rw [h1] at h2
              exact absurd h2 (by simp)
    | none =>
        have hE1 : intern st e1 = (st ++ [e1], st.length) := by simp [intern, h1]
        rw [hE1]
        show (intern (st ++ [e1]) e2).2 = st.length ↔ e1 = e2
        cases h2 : idxOf (st ++ [e1]) e2 with
        | some k =>
            have hk : (st ++ [e1])[k]? = some e2 := idxOf_some _ e2 k h2
            have hE2 : intern (st ++ [e1]) e2 = (st ++ [e1], k) := by simp [intern, h2]
            rw [hE2]
            show k = st.length ↔ e1 = e2
            constructor
            · intro hik
              rw [hik, List.getElem?_concat_length] at hk
              exact Option.some_inj.mp hk
            · intro he
              subst he
              rw [idxOf_append_self st e1 h1] at h2
              exact (Option.some_inj.mp h2).symm
        | none =>
            have hE2 : intern (st ++ [e1]) e2 =
                (st ++ [e1] ++ [e2], (st ++ [e1]).length) := by simp [intern, h2]
            rw [hE2]
            show (st ++ [e1]).length = st.length ↔ e1 = e2
            constructor
            · intro hik
              simp at hik
            · intro he
              subst he
              exact absurd (List.mem_append_right st (by simp))
                (idxOf_none_not_mem _ e1 h2)

/-- C8: subtraction is addition of the negation (definitionally), so
`Constant 10 - Constant 3` folds to `Constant 7`, `Dim 0 - Constant 3` folds
to `Sum(Dim 0, -3)`, and `x - x` folds to `Constant 0` for every
expression `x`. -/
theorem claim_C8_subtract_folding :
    (∀ x y : SDBMExpr, subtract x y = add x (negate y)) ∧
    subtract (.constant 10) (.constant 3) = some (.constant 7) ∧
    subtract (.dim 0) (.constant 3) = some (.sum (.dim 0) (-3)) ∧
    (∀ x : SDBMExpr, subtract x x = some (.constant 0)) := by
  refine ⟨fun x y => rfl, by decide, by decide, fun x => ?_⟩
  cases x with
  | constant c => simp [subtract, negate, add]
  | dim p => simp [subtract, negate, add]
  | symbol p => simp [subtract, negate, add]
  | stripe v f => simp [subtract, negate, add]
  | neg v => simp [subtract, negate, add]
  | sum l c => simp [subtract, negate, add]
  | diff l r => simp [subtract, negate, add]

/-- C9: adding a constant to an existing Sum folds the constants into a
single Sum node — `(Dim 0 + 10) + 32 = Sum(Dim 0, 42)` — and, in general,
adding a constant to any expression whose head is not a doubly-nested Sum
never produces a doubly-nested Sum, so builder sums of a varying expression
and a constant stay one level deep. -/
theorem claim_C9_sum_nesting :
    add (.dim 0) (.constant 10) = some (.sum (.dim 0) 10) ∧
    add (.sum (.dim 0) 10) (.constant 32) = some (.sum (.dim 0) 42) ∧
    (∀ (x : SDBMExpr) (c : Int) (r : SDBMExpr), hasNestedSumHead x = false →
        add x (.constant c) = some r → hasNestedSumHead r = false) := by
  refine ⟨by decide, by decide, fun x c r hx hr => ?_⟩
  cases x with
  | constant a =>
      simp [add] at hr
      subst hr
      rfl
  | sum l c1 =>
      simp [add] at hr
      subst hr
      cases l <;> simp_all [hasNestedSumHead]
  | dim p =>
      simp [add] at hr
      subst hr
      split <;> rfl
  | symbol p =>
      simp [add] at hr
      subst hr
      split <;> rfl
  | stripe v f =>
      simp [add] at hr
      subst hr
      split <;> rfl
  | neg v =>
      simp [add] at hr
      subst hr
      split <;> rfl
  | diff a b =>
      simp [add] at hr
      subst hr
      split <;> rfl

/-- C9 (witness): the invariant applied at `(Dim 0 + 10) + 32`. -/
theorem claim_C9_sum_nesting_witness :
    hasNestedSumHead (.sum (.dim 0) 10) = false ∧
    hasNestedSumHead (.sum (.dim 0) 42) = false :=
  ⟨by decide,
   claim_C9_sum_nesting.2.2 (.sum (.dim 0) 10) 32 (.sum (.dim 0) 42)
     (by decide) (by decide)⟩

/-- C10: the raw variant constructors build the literal node with no
folding, preserving operands and operand order — both `Diff(var, stripe)`
and `Diff(stripe, var)` are constructible and distinct, `Diff(x, x)` is not
folded to a constant — and interning a raw node twice returns the identical
handle. -/
theorem claim_C10_raw_constructors :
    (∀ a : SDBMExpr, (SDBMNegExpr.get a).getVar = a) ∧
    (∀ (a : SDBMExpr) (c : Int),
        (SDBMSumExpr.get a c).getLHS = a ∧ (SDBMSumExpr.get a c).getSumRHS = c) ∧
    (∀ a b : SDBMExpr,
        (SDBMDiffExpr.get a b).getLHS = a ∧ (SDBMDiffExpr.get a b).getRHS = b) ∧
    SDBMDiffExpr.get (.symbol 0) (.stripe (.symbol 0) 2) ≠
      SDBMDiffExpr.get (.stripe (.symbol 0) 2) (.symbol 0) ∧
    SDBMDiffExpr.get (.symbol 0) (.symbol 0) ≠ .constant 0 ∧
    (intern (intern [] (SDBMDiffExpr.get (.symbol 0) (.stripe (.symbol 0) 2))).1
        (SDBMDiffExpr.get (.symbol 0) (.stripe (.symbol 0) 2))).2 =
      (intern [] (SDBMDiffExpr.get (.symbol 0) (.stripe (.symbol 0) 2))).2 :=
  ⟨fun a => rfl, fun a c => ⟨rfl, rfl⟩, fun a b => ⟨rfl, rfl⟩,
   by decide, by decide, by decide⟩

end SDBM
